import Mathlib

set_option linter.unusedVariables false

/-! Shallow embedding of the ReconMaster persistence and engine layers.

The Python source (core/database.py, core/engine.py, core/rate_limiter.py,
core/module_loader.py, web/scan_manager.py, web/app.py) is translated into
executable Lean definitions: SQLite tables become lists of records, JSON
payloads an inductive `Json` type, exceptions `Except`/`Option` results or
explicit flags, and wall-clock time an explicit rational parameter. -/

/-- JSON values as produced by `json.loads` and consumed by `json.dumps` in
core/database.py.  Numbers are restricted to integers, which covers every
payload shape the claims quantify over. -/
inductive Json where
  | null : Json
  | bool (b : Bool) : Json
  | num (n : Int) : Json
  | str (s : String) : Json
  | arr (xs : List Json) : Json
  | obj (kvs : List (String × Json)) : Json

mutual

/-- `json.dumps` with Python's default separators `", "` and `": "`
(string-escape details are irrelevant to the claims and omitted). -/
def Json.dumps : Json → String
  | Json.null => "null"
  | Json.bool true => "true"
  | Json.bool false => "false"
  | Json.num n => toString n
  | Json.str s => "\"" ++ s ++ "\""
  | Json.arr xs => "[" ++ Json.dumpsArr xs ++ "]"
  | Json.obj kvs => "\x7b" ++ Json.dumpsObj kvs ++ "\x7d"

def Json.dumpsArr : List Json → String
  | [] => ""
  | [x] => Json.dumps x
  | x :: xs => Json.dumps x ++ ", " ++ Json.dumpsArr xs

def Json.dumpsObj : List (String × Json) → String
  | [] => ""
  | [(k, v)] => "\"" ++ k ++ "\": " ++ Json.dumps v
  | (k, v) :: kvs => "\"" ++ k ++ "\": " ++ Json.dumps v ++ ", " ++ Json.dumpsObj kvs

end

/-- One row of the `results` table (core/database.py `_init_db`).  `data`
holds the JSON payload: `store_result` serializes with `json.dumps` and
`get_results` parses back with `json.loads`, so the row is modelled by the
parsed value and the TEXT column by `Json.dumps data`. -/
structure ResultRow where
  id : Nat
  scan_id : Option String
  target : String
  module : String
  source : String
  type : String
  data : Json

/-- ASCII lowercasing as applied by SQLite's default `LIKE` (case folding of
A-Z only). -/
def lowerAscii (c : Char) : Char :=
  if 'A' ≤ c ∧ c ≤ 'Z' then Char.ofNat (c.toNat + 32) else c

/-- SQLite `LIKE` pattern matching (no ESCAPE clause): `%` matches any
sequence (every suffix of the text is tried for the rest of the pattern),
`_` any single character, and ordinary characters compare
ASCII-case-insensitively. -/
def likeMatch : List Char → List Char → Bool
  | [], s => s.isEmpty
  | q :: ps, s =>
    if q = '%' then s.tails.any (fun t => likeMatch ps t)
    else
      match s with
      | [] => false
      | c :: cs =>
          (q == '_' || lowerAscii q == lowerAscii c) && likeMatch ps cs

/-- `Database.get_results` (core/database.py 123-173): the WHERE clause is
`scan_id = ?` when a scan_id is supplied, else `target = ?`; a `module`
filter containing a slash adds `module = ?`, one without adds
`module LIKE '<module>/%'`. -/
def get_results (rows : List ResultRow) (target : String)
    (module : Option String) (scan_id : Option String) : List ResultRow :=
  let base := match scan_id with
    | some sid => rows.filter (fun r => r.scan_id == some sid)
    | none => rows.filter (fun r => r.target == target)
  match module with
  | none => base
  | some m =>
      if '/' ∈ m.toList then base.filter (fun r => r.module == m)
      else base.filter (fun r => likeMatch (m ++ "/%").toList r.module.toList)

/-- The values of the `"subdomain"` key collected by
`Database.get_unique_subdomains` (core/database.py 175-192): each result of
`get_results(target, module="subdomain")` contributes its payload's list
elements (or the payload itself when not a list), and each dict entry with a
`"subdomain"` key contributes that value. -/
def subdomainValues (rows : List ResultRow) (target : String) : List Json :=
  (get_results rows target (some "subdomain") none).flatMap (fun r =>
    (match r.data with
     | Json.arr xs => xs
     | d => [d]).filterMap (fun item =>
      match item with
      | Json.obj kvs => kvs.lookup "subdomain"
      | _ => none))

/-- Python's `sorted` on the collected set is only well typed when every
collected value is a string; any non-string value is modelled as the error
result `none` (mixed types raise `TypeError` inside `sorted`). -/
def allStrings : List Json → Option (List String)
  | [] => some []
  | Json.str s :: xs => (allStrings xs).map (fun ss => s :: ss)
  | _ :: _ => none

/-- `sorted(list(set(...)))`: duplicates removed, then increasing
lexicographic order. -/
def sortedDedup (l : List String) : List String :=
  l.dedup.insertionSort (· ≤ ·)

/-- `Database.get_unique_subdomains` (core/database.py 175-192). -/
def get_unique_subdomains (rows : List ResultRow) (target : String) :
    Option (List String) :=
  (allStrings (subdomainValues rows target)).map sortedDedup

/-- The deduplication key of a row: its `type` together with the serialized
TEXT of its payload, exactly the `(r_type, data)` pair of
core/database.py 256. -/
def resKey (r : ResultRow) : String × String := (r.type, r.data.dumps)

/-- The ids marked for deletion by `Database.deduplicate_results`
(core/database.py 252-260): the selected rows are walked in table order with
a `seen` set of `(type, serialized data)` keys. -/
def dupIds (seen : List (String × String)) : List ResultRow → List Nat
  | [] => []
  | r :: rs =>
    if resKey r ∈ seen then r.id :: dupIds seen rs
    else dupIds (resKey r :: seen) rs

/-- The row filter of the SELECT in `deduplicate_results` (`WHERE target = ?`
plus `AND type = ?` when a type is given). -/
def dedupPred (target : String) (result_type : Option String)
    (r : ResultRow) : Bool :=
  r.target == target &&
    (match result_type with
     | some ty => r.type == ty
     | none => true)

/-- Rows selected by `deduplicate_results` before the duplicate scan. -/
def dedupSelect (rows : List ResultRow) (target : String)
    (result_type : Option String) : List ResultRow :=
  rows.filter (dedupPred target result_type)

/-- `Database.deduplicate_results` (core/database.py 233-268): select the
rows for the target (optionally one type), mark every row whose
`(type, data)` key was already seen, DELETE the marked rows by id, and
return how many were marked. -/
def deduplicate_results (rows : List ResultRow) (target : String)
    (result_type : Option String) : List ResultRow × Nat :=
  let toDelete := dupIds [] (dedupSelect rows target result_type)
  (rows.filter (fun r => decide (r.id ∉ toDelete)), toDelete.length)

/-- One row of the `scans` table (core/database.py `_init_db`).  Times are
abstract instants. -/
structure ScanRow where
  id : String
  target : String
  status : String
  start_time : Nat
  end_time : Option Nat
deriving DecidableEq

/-- The raw INSERT of `create_scan`: violating the primary key on `scans.id`
raises `sqlite3.IntegrityError`. -/
def insertScanSql (db : List ScanRow) (scan_id target status : String)
    (now : Nat) : Except Unit (List ScanRow) :=
  if db.any (fun r => r.id == scan_id) then Except.error ()
  else Except.ok (db ++ [⟨scan_id, target, status, now, none⟩])

/-- `Database.create_scan` (core/database.py 270-287): the INSERT runs under
`try/except sqlite3.Error`, which logs and swallows every failure.  The
boolean records whether an exception propagates to the caller. -/
def create_scan (db : List ScanRow) (scan_id target status : String)
    (now : Nat) : List ScanRow × Bool :=
  match insertScanSql db scan_id target status now with
  | Except.ok db2 => (db2, false)
  | Except.error _ => (db, false)

/-- The statuses `update_scan_status` treats as terminal
(core/database.py 299). -/
def terminalStatuses : List String := ["completed", "failed", "stopped"]

/-- `Database.update_scan_status` (core/database.py 289-309): a terminal
status writes `status` and `end_time` in one UPDATE, any other status writes
only `status`; every `sqlite3.Error` is caught and logged, so no exception
reaches the caller (flag always false). -/
def update_scan_status (db : List ScanRow) (scan_id status : String)
    (now : Nat) : List ScanRow × Bool :=
  (db.map (fun r =>
    if r.id == scan_id then
      if status ∈ terminalStatuses then
        { r with status := status, end_time := some now }
      else
        { r with status := status }
    else r), false)

/-- `Database.get_scan` (core/database.py 311-336). -/
def get_scan (db : List ScanRow) (scan_id : String) : Option ScanRow :=
  db.find? (fun r => r.id == scan_id)

/-- `Database.store_result` (core/database.py 88-121): serializes `data`
with `json.dumps` and INSERTs one row. -/
def store_result (rows : List ResultRow) (nextId : Nat)
    (target module source result_type : String) (data : Json)
    (scan_id : Option String) : List ResultRow :=
  rows ++ [⟨nextId, scan_id, target, module, source, result_type, data⟩]

/-- The identity a `BaseModule` instance carries
(core/module_loader.py 25-46): its category (`module_type`), its `name`, and
the scan it belongs to. -/
structure ModuleCtx where
  module_type : String
  name : String
  scan_id : Option String

/-- `BaseModule.store_results` (core/module_loader.py 101-132): when the
fourth argument is absent (`data is None`) the third argument is the payload
and the type defaults to `module_type`; otherwise the third argument is the
type and the fourth the payload.  The stored module path is
`module_type/name`.  A non-string third argument in the four-argument form
fails inside `store_result` when bound as the TEXT `type` column
(`sqlite3`'s error is caught and logged there), leaving the table
unchanged. -/
def store_results (m : ModuleCtx) (rows : List ResultRow) (nextId : Nat)
    (target source : String) (result_type_or_data : Json)
    (data : Option Json) : List ResultRow :=
  match data with
  | none =>
      store_result rows nextId target (m.module_type ++ "/" ++ m.name) source
        m.module_type result_type_or_data m.scan_id
  | some d =>
      match result_type_or_data with
      | Json.str ty =>
          store_result rows nextId target (m.module_type ++ "/" ++ m.name)
            source ty d m.scan_id
      | _ => rows

/-- Outcome of one phase's `asyncio.wait_for(asyncio.gather(*tasks), 300)`
in `execute_phase` (core/engine.py 174-182): either every wrapped run
finishes within the 5-minute timeout, or `asyncio.wait_for` raises
`asyncio.TimeoutError`. -/
inductive PhaseOutcome where
  | finished : PhaseOutcome
  | timedOut : PhaseOutcome
deriving DecidableEq

/-- `execute_phase` has no handler around `asyncio.wait_for`, so a phase
timeout propagates to the caller as an exception. -/
def execute_phase : PhaseOutcome → Except String Unit
  | PhaseOutcome.finished => Except.ok ()
  | PhaseOutcome.timedOut => Except.error "TimeoutError"

/-- Result of the engine pipeline in `run_scan` (core/engine.py 184-238):
the status finally written through `update_scan_status`, how many phases
started executing, and whether the caught exception is re-raised to the
supervising task. -/
structure RunScanResult where
  finalStatus : String
  phasesRun : Nat
  rethrown : Bool
deriving DecidableEq

/-- Sequential phase execution inside the `try` of `run_scan`: phases run
in order and the first exception aborts the remaining ones.  Returns how
many phases started and whether an exception escaped the sequence. -/
def runPhases : List PhaseOutcome → Nat × Except String Unit
  | [] => (0, Except.ok ())
  | o :: os =>
    match execute_phase o with
    | Except.ok () => ((runPhases os).1 + 1, (runPhases os).2)
    | Except.error msg => (1, Except.error msg)

/-- `run_scan` (core/engine.py 184-238): the five phases run inside one
`try`; on success the scan status is set `completed`; any exception is
caught by the outer handler, which sets status `failed`, emits an `error`
event and re-raises. -/
def run_scan (outcomes : List PhaseOutcome) : RunScanResult :=
  match runPhases outcomes with
  | (n, Except.ok ()) => ⟨"completed", n, false⟩
  | (n, Except.error _) => ⟨"failed", n, true⟩

/-- Events emitted through the progress callback (core/engine.py).  Only
the constructors the claims inspect are modelled. -/
inductive Event where
  | module_end (module : String) (status : String) (error : Option String)
  | errorEv (message : String)
deriving DecidableEq

/-- Python `try/except Exception` around a block: the handler receives the
exception, and its result becomes the block's result. -/
def pyTry (body : Except String α) (handler : String → Except String α) :
    Except String α :=
  match body with
  | Except.ok a => Except.ok a
  | Except.error e => handler e

/-- `run_module_safe` (core/engine.py 116-143): the module's `run(target)`
runs under `try/except Exception`; the success path emits `module_end` with
status `completed`; the handler logs, emits `module_end` with status
`failed` plus the error text and an `error` event, and returns normally. -/
def run_module_safe (name : String) (runOutcome : Except String Unit) :
    Except String (List Event) :=
  pyTry
    (match runOutcome with
     | Except.ok () => Except.ok [Event.module_end name "completed" none]
     | Except.error e => Except.error e)
    (fun e => Except.ok [Event.module_end name "failed" (some e),
                         Event.errorEv (name ++ " failed: " ++ e)])

/-- `asyncio.gather` over the wrapped tasks of a phase: collects each
task's result and propagates an exception if any task raises one. -/
def gatherExcept : List (Except String (List Event)) →
    Except String (List (List Event))
  | [] => Except.ok []
  | Except.error e :: _ => Except.error e
  | Except.ok a :: ts =>
    match gatherExcept ts with
    | Except.error e => Except.error e
    | Except.ok rest => Except.ok (a :: rest)

/-- The module part of a phase (core/engine.py 143, 182): every loaded
module, identified by name and by what its `run(target)` does, wrapped in
`run_module_safe` and gathered. -/
def runPhaseModules (mods : List (String × Except String Unit)) :
    Except String (List (List Event)) :=
  gatherExcept (mods.map (fun m => run_module_safe m.1 m.2))

/-- The spec's description of the isolation shell, stated independently of
the code: a `module_end` event with status `completed`, or `module_end`
with status `failed` carrying the error text (the engine also emits an
`error` event after it). -/
def specShellEvents (name : String) : Except String Unit → List Event
  | Except.ok () => [Event.module_end name "completed" none]
  | Except.error e => [Event.module_end name "failed" (some e),
                       Event.errorEv (name ++ " failed: " ++ e)]

/-- State of `RateLimiter` (core/rate_limiter.py): current `tokens`, the
`last_update` instant and the event-loop clock (`time.monotonic()`), all
exact rationals. -/
structure LimState where
  tokens : ℚ
  last : ℚ
  clock : ℚ
deriving DecidableEq

/-- `RateLimiter.__init__` (core/rate_limiter.py 24-34):
`capacity = tokens = rate`, `last_update = now`. -/
def limInit (rate t0 : ℚ) : LimState := ⟨rate, t0, t0⟩

/-- One iteration of the `while self.tokens < 1` body
(core/rate_limiter.py 46-56): replenish `min(capacity, tokens+elapsed*rate)`
at the current instant, then sleep `(1 - tokens)/rate` when still short. -/
def limStep (rate : ℚ) (s : LimState) : LimState :=
  let tk := min rate (s.tokens + (s.clock - s.last) * rate)
  if tk < 1 then
    { tokens := tk, last := s.clock, clock := s.clock + (1 - tk) / rate }
  else
    { tokens := tk, last := s.clock, clock := s.clock }

/-- The `while` loop of `acquire` followed by `tokens -= 1`, with explicit
fuel; `none` means the loop did not finish within the fuel. -/
def limLoop (rate : ℚ) : Nat → LimState → Option LimState
  | 0, _ => none
  | fuel + 1, s =>
    if s.tokens < 1 then limLoop rate fuel (limStep rate s)
    else some { s with tokens := s.tokens - 1 }

/-- `RateLimiter.acquire` (core/rate_limiter.py 36-59): an immediate no-op
when `rate ≤ 0`, otherwise the token-bucket loop.  In exact arithmetic a
sequential caller with `rate ≥ 1` needs at most two loop iterations (the
sleep is computed to reach exactly one token), so fuel 3 is enough; see
`acquire_progress`. -/
def acquire (rate : ℚ) (s : LimState) : Option LimState :=
  if rate ≤ 0 then some s else limLoop rate 3 s

/-- `N` back-to-back `acquire` calls by a single caller (the `asyncio.Lock`
serializes concurrent callers). -/
def acquireN (rate : ℚ) : Nat → LimState → Option LimState
  | 0, s => some s
  | n + 1, s => (acquire rate s).bind (acquireN rate n)

/-- Combined state of one scan's progress log (`ScanManager.scan_logs`,
web/scan_manager.py 24-34), one websocket subscriber of `/ws/scan_id`
(web/app.py 82-99), and the events that subscriber has received, in order.
`histObj` is the content of the list object the endpoint captured with
`history = scan_manager.get_scan_logs(scan_id)`; `histLive` records whether
that object is still the one bound in `scan_logs` (slicing to the last 1000
entries rebinds the name to a fresh list). -/
structure WsState where
  buffer : List Nat
  registered : Bool
  histObj : List Nat
  histLive : Bool
  pos : Nat
  received : List Nat
deriving DecidableEq

/-- No log yet, no subscriber. -/
def wsInit : WsState := ⟨[], false, [], false, 0, []⟩

/-- `progress_callback` (web/scan_manager.py 24-34) +
`WebSocketManager.send_message`: append the event to the scan's log, keep
only the last 1000 entries when the log exceeds 1000, and deliver the event
to the registered subscriber.  Modelled as one atomic action; the code can
interleave further at its internal awaits, which only adds schedules. -/
def wsEmit (e : Nat) (s : WsState) : WsState :=
  let b := s.buffer ++ [e]
  let truncated := 1000 < b.length
  { buffer := if truncated then b.drop (b.length - 1000) else b
    registered := s.registered
    histObj := if s.histLive then b else s.histObj
    histLive := s.histLive && !truncated
    pos := s.pos
    received := if s.registered then s.received ++ [e] else s.received }

/-- `ws_manager.connect` + `history = scan_manager.get_scan_logs(scan_id)`
(web/app.py 84-87): the socket is added to `active_connections` (so it
starts receiving live broadcasts) and the current log object is captured
for replay. -/
def wsRegister (s : WsState) : WsState :=
  { s with registered := true, histObj := s.buffer, histLive := true,
           pos := 0 }

/-- One iteration of the replay loop `for msg in history:` (web/app.py
88-89): sends the next entry of the captured list object, which is the live
log while no truncation has replaced it. -/
def wsReplayStep (s : WsState) : WsState :=
  let hist := if s.histLive then s.buffer else s.histObj
  if s.pos < hist.length then
    { s with received := s.received ++ [hist.getD s.pos 0],
             pos := s.pos + 1 }
  else s

/-- The atomic actions of the emitter task and the subscriber endpoint. -/
inductive WsAction where
  | emit (e : Nat)
  | register
  | replayStep
deriving DecidableEq

/-- Run a schedule (an interleaving of the two asyncio tasks). -/
def wsRun : List WsAction → WsState → WsState
  | [], s => s
  | a :: rest, s =>
    wsRun rest (match a with
      | WsAction.emit e => wsEmit e s
      | WsAction.register => wsRegister s
      | WsAction.replayStep => wsReplayStep s)

/-- The last `n` entries of a list (how the `[-1000:]` slice of
web/scan_manager.py 31 keeps the newest events). -/
def lastN (n : Nat) (l : List α) : List α := l.drop (l.length - n)

/-- The scans table after `ScanManager.start_scan` pre-creates the record
(web/scan_manager.py 37: `create_scan(scan_id, target, status="pending")`). -/
def webScanDb1 : List ScanRow :=
  (create_scan [] "s1" "example.com" "pending" 0).1

/-- The table after the engine then runs
`db.create_scan(scan_id, target, "running")` (core/engine.py 67) for the
same scan id. -/
def webScanDb2 : List ScanRow :=
  (create_scan webScanDb1 "s1" "example.com" "running" 1).1

/-- The table after the engine finishes and writes the terminal status
(core/engine.py 221). -/
def webScanDb3 : List ScanRow :=
  (update_scan_status webScanDb2 "s1" "completed" 2).1

/-- Helper for C1: a phase sequence containing a timeout stops at the first
timed-out phase and lets `asyncio.TimeoutError` escape. -/
theorem runPhases_timeout (outcomes : List PhaseOutcome)
    (h : PhaseOutcome.timedOut ∈ outcomes) :
    runPhases outcomes =
      ((outcomes.takeWhile (fun o => o == PhaseOutcome.finished)).length + 1,
       Except.error "TimeoutError") := by
  induction outcomes with
  | nil => cases h
  | cons o os ih =>
    cases o with
    | finished =>
      have h2 : PhaseOutcome.timedOut ∈ os := by
        rcases List.mem_cons.mp h with h1 | h1
        · exact absurd h1 (by decide)
        · exact h1
      simp [runPhases, execute_phase, List.takeWhile_cons, ih h2]
    | timedOut =>
      simp [runPhases, execute_phase, List.takeWhile_cons]

/-- C1, counterexample.  The claim says a phase timeout lets the engine
continue to the next phase and does not make the scan `failed`.  With the
first of the five phases timing out, `run_scan` executes only that one
phase (`phasesRun = 1`, the other four are skipped), writes status
`failed`, and re-raises the `TimeoutError`. -/
theorem phase_timeout_fails_scan_cex :
    run_scan [PhaseOutcome.timedOut, PhaseOutcome.finished,
      PhaseOutcome.finished, PhaseOutcome.finished, PhaseOutcome.finished] =
      ⟨"failed", 1, true⟩ ∧ (1 : Nat) ≠ 5 := by
  exact ⟨by decide, by decide⟩

/-- C1, amended.  `asyncio.wait_for` raises on the phase timeout, no
handler exists inside `execute_phase`, so the exception aborts the
pipeline: phases after the first timed-out one never run, the outer
handler of `run_scan` sets the scan status to `failed` and re-raises. -/
theorem phase_timeout_aborts_pipeline (outcomes : List PhaseOutcome)
    (h : PhaseOutcome.timedOut ∈ outcomes) :
    (run_scan outcomes).finalStatus = "failed" ∧
    (run_scan outcomes).rethrown = true ∧
    (run_scan outcomes).phasesRun =
      (outcomes.takeWhile (fun o => o == PhaseOutcome.finished)).length + 1 := by
  unfold run_scan
  rw [runPhases_timeout outcomes h]
  exact ⟨rfl, rfl, rfl⟩

/-- C1, witness for `phase_timeout_aborts_pipeline` at a concrete phase
sequence whose second phase times out. -/
theorem phase_timeout_aborts_pipeline_witness :
    (run_scan [PhaseOutcome.finished, PhaseOutcome.timedOut,
        PhaseOutcome.finished]).finalStatus = "failed" ∧
    (run_scan [PhaseOutcome.finished, PhaseOutcome.timedOut,
        PhaseOutcome.finished]).rethrown = true ∧
    (run_scan [PhaseOutcome.finished, PhaseOutcome.timedOut,
        PhaseOutcome.finished]).phasesRun = 2 := by
  have h := phase_timeout_aborts_pipeline
    [PhaseOutcome.finished, PhaseOutcome.timedOut, PhaseOutcome.finished]
    (by decide)
  exact ⟨h.1, h.2.1, h.2.2.trans (by decide)⟩

/-- C4.  Every module outcome, success or any raised exception, is handled
by the isolation shell: the phase gather returns normally (`Except.ok`, no
module fault escapes), every module contributes exactly the events the spec
describes (`module_end` with status `completed`, or `module_end` with
status `failed` carrying the error text plus an `error` event), and all
modules of the phase are processed. -/
theorem run_module_safe_isolates
    (mods : List (String × Except String Unit)) :
    runPhaseModules mods =
      Except.ok (mods.map (fun m => specShellEvents m.1 m.2)) := by
  induction mods with
  | nil => rfl
  | cons m ms ih =>
    obtain ⟨name, outcome⟩ := m
    have hm : run_module_safe name outcome =
        Except.ok (specShellEvents name outcome) := by
      cases outcome with
      | ok u => cases u; rfl
      | error e => rfl
    simp only [runPhaseModules, List.map_cons] at ih ⊢
    rw [hm]
    simp [gatherExcept, ih]

/-- C3, counterexample.  The claim says Create Scan signals AlreadyExists
to its caller and that storage failures in Create/Update Scan propagate.
Creating `"s1"` when a row with id `"s1"` already exists hits the primary
key IntegrityError, yet `create_scan` returns normally (propagated flag
`false`) with the table unchanged — nothing is signalled to the caller. -/
theorem create_scan_duplicate_swallowed_cex :
    create_scan [⟨"s1", "example.com", "pending", 0, none⟩] "s1"
        "example.com" "running" 1 =
      ([⟨"s1", "example.com", "pending", 0, none⟩], false) := by
  decide

/-- C3, amended.  `create_scan` and `update_scan_status` run their SQL
under `try/except sqlite3.Error` which logs and swallows: no storage
failure (in particular no duplicate-id IntegrityError) ever propagates to
the caller, and a duplicate `create_scan` leaves the table unchanged. -/
theorem scan_write_errors_never_propagate (db : List ScanRow)
    (scan_id target status : String) (now : Nat) :
    (create_scan db scan_id target status now).2 = false ∧
    (update_scan_status db scan_id status now).2 = false ∧
    (scan_id ∈ db.map ScanRow.id →
      (create_scan db scan_id target status now).1 = db) := by
  refine ⟨?_, rfl, ?_⟩
  · unfold create_scan
    cases insertScanSql db scan_id target status now <;> rfl
  · intro hmem
    have hany : db.any (fun r => r.id == scan_id) = true := by
      rw [List.any_eq_true]
      rcases List.mem_map.mp hmem with ⟨r, hr, hid⟩
      exact ⟨r, hr, by simp [hid]⟩
    simp [create_scan, insertScanSql, hany]

/-- C3, witness for `scan_write_errors_never_propagate` on a table that
already holds the scan id being created. -/
theorem scan_write_errors_never_propagate_witness :
    (create_scan [⟨"s1", "t", "pending", 0, none⟩] "s1" "t" "running" 1).2 =
      false ∧
    (update_scan_status [⟨"s1", "t", "pending", 0, none⟩] "s1" "running"
        1).2 = false ∧
    (create_scan [⟨"s1", "t", "pending", 0, none⟩] "s1" "t" "running" 1).1 =
      [⟨"s1", "t", "pending", 0, none⟩] := by
  have h := scan_write_errors_never_propagate
    [⟨"s1", "t", "pending", 0, none⟩] "s1" "t" "running" 1
  exact ⟨h.1, h.2.1, h.2.2 (by decide)⟩

/-- C2, evaluation at the failing input.  A web-started scan: the Scan
Manager pre-creates the row as `pending`; the engine's
`create_scan(scan_id, target, "running")` is a duplicate-key INSERT whose
IntegrityError is swallowed, so the row still reads `pending` while the
scan runs, and the terminal update then moves it straight from `pending`
to `completed` — the status `running` is never reached, contradicting the
claim that the engine sets `running` before a terminal status. -/
theorem web_scan_row_never_running :
    webScanDb2 = webScanDb1 ∧
    (get_scan webScanDb2 "s1").map ScanRow.status = some "pending" ∧
    get_scan webScanDb3 "s1" =
      some ⟨"s1", "example.com", "completed", 0, some 2⟩ := by
  decide

/-- C10.  The polymorphic `store_results` helper: with no fourth argument
the third is stored as the payload and the type defaults to the module's
category; with a fourth argument the third is the type and the fourth the
payload; in both cases the row carries module path `<category>/<name>`,
the given source and the module's scan id. -/
theorem store_results_dispatch (m : ModuleCtx) (rows : List ResultRow)
    (nextId : Nat) (target source : String) (tod : Json) :
    store_results m rows nextId target source tod none =
      rows ++ [⟨nextId, m.scan_id, target, m.module_type ++ "/" ++ m.name,
               source, m.module_type, tod⟩] ∧
    ∀ (ty : String) (d : Json),
      store_results m rows nextId target source (Json.str ty) (some d) =
        rows ++ [⟨nextId, m.scan_id, target, m.module_type ++ "/" ++ m.name,
                 source, ty, d⟩] :=
  ⟨rfl, fun ty d => rfl⟩

/-- Unfolding of the acquire loop when a token is already available: the
loop body never runs and `tokens -= 1` executes at once. -/
theorem limLoop_burst (r : ℚ) (f : Nat) (s : LimState)
    (h : ¬ s.tokens < 1) :
    limLoop r (f + 1) s = some ⟨s.tokens - 1, s.last, s.clock⟩ := by
  rw [limLoop, if_neg h]

/-- Unfolding of the acquire loop when the bucket is short: one body
iteration runs. -/
theorem limLoop_step (r : ℚ) (f : Nat) (s : LimState) (h : s.tokens < 1) :
    limLoop r (f + 1) s = limLoop r f (limStep r s) := by
  rw [limLoop, if_pos h]

/-- The loop body when the replenished bucket is still short: it sleeps
`(1 - tokens)/rate`. -/
theorem limStep_sleep (r : ℚ) (s : LimState)
    (h : min r (s.tokens + (s.clock - s.last) * r) < 1) :
    limStep r s = ⟨min r (s.tokens + (s.clock - s.last) * r), s.clock,
      s.clock + (1 - min r (s.tokens + (s.clock - s.last) * r)) / r⟩ := by
  simp only [limStep]
  rw [if_pos h]

/-- The loop body when replenishment reaches a full token: no sleep. -/
theorem limStep_nosleep (r : ℚ) (s : LimState)
    (h : ¬ min r (s.tokens + (s.clock - s.last) * r) < 1) :
    limStep r s = ⟨min r (s.tokens + (s.clock - s.last) * r), s.clock,
      s.clock⟩ := by
  simp only [limStep]
  rw [if_neg h]

/-- One `acquire` by a sequential caller with `rate ≥ 1` always succeeds
(at most two loop iterations in exact arithmetic), keeps the bucket
nonnegative and `last_update ≤ clock`, and decreases the potential
`tokens - last_update * rate` by at least one. -/
theorem acquire_progress (r : ℚ) (hr : 1 ≤ r) (s : LimState)
    (h0 : 0 ≤ s.tokens) (h1 : s.last ≤ s.clock) :
    ∃ s2, acquire r s = some s2 ∧ 0 ≤ s2.tokens ∧ s2.last ≤ s2.clock ∧
      s2.tokens - s2.last * r ≤ s.tokens - s.last * r - 1 := by
  have hr0 : (0 : ℚ) < r := lt_of_lt_of_le one_pos hr
  have hnle : ¬ r ≤ 0 := not_le.mpr hr0
  have hch : acquire r s = limLoop r 3 s := by
    unfold acquire
    rw [if_neg hnle]
  by_cases hlt : s.tokens < 1
  · set tk := min r (s.tokens + (s.clock - s.last) * r) with htkdef
    have htkle : tk ≤ s.tokens + (s.clock - s.last) * r := min_le_right _ _
    have htkle2 : tk ≤ s.tokens + s.clock * r - s.last * r := by
      ring_nf at htkle ⊢
      linarith
    have htknn : 0 ≤ tk :=
      le_min hr0.le (add_nonneg h0 (mul_nonneg (by linarith) hr0.le))
    by_cases htk1 : tk < 1
    · -- replenish, sleep, replenish to exactly one token, take it
      have hs1 : limStep r s = ⟨tk, s.clock, s.clock + (1 - tk) / r⟩ :=
        limStep_sleep r s htk1
      have harg : tk + ((s.clock + (1 - tk) / r) - s.clock) * r = 1 := by
        field_simp
        ring
      have hs2 : limStep r ⟨tk, s.clock, s.clock + (1 - tk) / r⟩ =
          ⟨1, s.clock + (1 - tk) / r, s.clock + (1 - tk) / r⟩ := by
        have h2 : ¬ min r ((⟨tk, s.clock, s.clock + (1 - tk) / r⟩ :
            LimState).tokens + ((⟨tk, s.clock, s.clock + (1 - tk) / r⟩ :
            LimState).clock - (⟨tk, s.clock, s.clock + (1 - tk) / r⟩ :
            LimState).last) * r) < 1 := by
          show ¬ min r (tk + ((s.clock + (1 - tk) / r) - s.clock) * r) < 1
          rw [harg, min_eq_right hr]
          norm_num
        have h3 := limStep_nosleep r ⟨tk, s.clock, s.clock + (1 - tk) / r⟩ h2
        rw [h3]
        show (⟨min r (tk + ((s.clock + (1 - tk) / r) - s.clock) * r),
          s.clock + (1 - tk) / r, s.clock + (1 - tk) / r⟩ : LimState) = _
        rw [harg, min_eq_right hr]
      have echain : limLoop r 3 s =
          some ⟨(1 : ℚ) - 1, s.clock + (1 - tk) / r,
                s.clock + (1 - tk) / r⟩ := by
        calc limLoop r 3 s
            = limLoop r 2 (limStep r s) := limLoop_step r 2 s hlt
          _ = limLoop r 2 ⟨tk, s.clock, s.clock + (1 - tk) / r⟩ := by
              rw [hs1]
          _ = limLoop r 1
                (limStep r ⟨tk, s.clock, s.clock + (1 - tk) / r⟩) :=
              limLoop_step r 1 _ htk1
          _ = limLoop r 1
                ⟨1, s.clock + (1 - tk) / r, s.clock + (1 - tk) / r⟩ := by
              rw [hs2]
          _ = some ⟨(1 : ℚ) - 1, s.clock + (1 - tk) / r,
                s.clock + (1 - tk) / r⟩ :=
              limLoop_burst r 0 _ (by norm_num)
      refine ⟨⟨(1 : ℚ) - 1, s.clock + (1 - tk) / r, s.clock + (1 - tk) / r⟩,
        hch.trans echain, by norm_num, le_refl _, ?_⟩
      show (1 : ℚ) - 1 - (s.clock + (1 - tk) / r) * r ≤
        s.tokens - s.last * r - 1
      have hexp : (s.clock + (1 - tk) / r) * r = s.clock * r + (1 - tk) := by
        field_simp
      rw [hexp]
      linarith
    · -- replenish reaches a full token at once: no sleep
      have hs1 : limStep r s = ⟨tk, s.clock, s.clock⟩ := limStep_nosleep r s htk1
      have echain : limLoop r 3 s = some ⟨tk - 1, s.clock, s.clock⟩ := by
        calc limLoop r 3 s
            = limLoop r 2 (limStep r s) := limLoop_step r 2 s hlt
          _ = limLoop r 2 ⟨tk, s.clock, s.clock⟩ := by rw [hs1]
          _ = some ⟨tk - 1, s.clock, s.clock⟩ := limLoop_burst r 1 _ htk1
      refine ⟨⟨tk - 1, s.clock, s.clock⟩, hch.trans echain, ?_, le_refl _, ?_⟩
      · show (0 : ℚ) ≤ tk - 1
        have := not_lt.mp htk1
        linarith
      · show tk - 1 - s.clock * r ≤ s.tokens - s.last * r - 1
        linarith
  · -- a token is already available: no loop iteration
    have echain : limLoop r 3 s = some ⟨s.tokens - 1, s.last, s.clock⟩ :=
      limLoop_burst r 2 s hlt
    refine ⟨⟨s.tokens - 1, s.last, s.clock⟩, hch.trans echain, ?_, h1, ?_⟩
    · show (0 : ℚ) ≤ s.tokens - 1
      have := not_lt.mp hlt
      linarith
    · show s.tokens - 1 - s.last * r ≤ s.tokens - s.last * r - 1
      linarith

/-- `N` sequential acquires with `rate ≥ 1` all succeed and decrease the
potential `tokens - last_update * rate` by at least `N`. -/
theorem acquireN_invariant (r : ℚ) (hr : 1 ≤ r) :
    ∀ (N : Nat) (s : LimState), 0 ≤ s.tokens → s.last ≤ s.clock →
      ∃ s2, acquireN r N s = some s2 ∧ 0 ≤ s2.tokens ∧
        s2.last ≤ s2.clock ∧
        s2.tokens - s2.last * r ≤ s.tokens - s.last * r - N := by
  intro N
  induction N with
  | zero =>
    intro s h0 h1
    exact ⟨s, rfl, h0, h1, by push_cast; linarith⟩
  | succ n ih =>
    intro s h0 h1
    obtain ⟨s1, ha, h10, h11, hM⟩ := acquire_progress r hr s h0 h1
    obtain ⟨s2, hb, h20, h21, hM2⟩ := ih s1 h10 h11
    refine ⟨s2, ?_, h20, h21, ?_⟩
    · rw [acquireN, ha]
      exact hb
    · push_cast
      linarith

/-- C5, counterexample.  The claim bounds the elapsed time of `N` acquires
below by `(N-1)/rate`, only the first token being free.  But the bucket
starts full at `capacity = rate`: with rate 2, two immediate acquires
consume the two initial tokens and suspend for no time at all, while the
claimed bound demands at least `(2-1)/2 = 1/2`. -/
theorem rate_limiter_burst_cex :
    acquireN 2 2 (limInit 2 0) = some ⟨0, 0, 0⟩ ∧
    ¬ ((2 - 1 : ℚ) / 2 ≤ (0 : ℚ) - 0) := by
  have hnle : ¬ (2 : ℚ) ≤ 0 := by norm_num
  have h1 : acquire 2 (⟨2, 0, 0⟩ : LimState) = some ⟨1, 0, 0⟩ := by
    have ha : acquire 2 (⟨2, 0, 0⟩ : LimState) = limLoop 2 3 ⟨2, 0, 0⟩ := by
      unfold acquire
      rw [if_neg hnle]
    have hb : limLoop 2 (2 + 1) (⟨2, 0, 0⟩ : LimState) =
        some ⟨(2 : ℚ) - 1, 0, 0⟩ :=
      limLoop_burst 2 2 _ (by norm_num)
    exact ha.trans (hb.trans (by norm_num [LimState.mk.injEq]))
  have h2 : acquire 2 (⟨1, 0, 0⟩ : LimState) = some ⟨0, 0, 0⟩ := by
    have ha : acquire 2 (⟨1, 0, 0⟩ : LimState) = limLoop 2 3 ⟨1, 0, 0⟩ := by
      unfold acquire
      rw [if_neg hnle]
    have hb : limLoop 2 (2 + 1) (⟨1, 0, 0⟩ : LimState) =
        some ⟨(1 : ℚ) - 1, 0, 0⟩ :=
      limLoop_burst 2 2 _ (by norm_num)
    exact ha.trans (hb.trans (by norm_num [LimState.mk.injEq]))
  constructor
  · calc acquireN 2 2 (limInit 2 0)
        = (acquire 2 ⟨2, 0, 0⟩).bind (acquireN 2 1) := rfl
      _ = (some (⟨1, 0, 0⟩ : LimState)).bind (acquireN 2 1) := by rw [h1]
      _ = (acquire 2 ⟨1, 0, 0⟩).bind (acquireN 2 0) := rfl
      _ = (some (⟨0, 0, 0⟩ : LimState)).bind (acquireN 2 0) := by rw [h2]
      _ = some ⟨0, 0, 0⟩ := rfl
  · norm_num

/-- C5, amended.  The bucket starts full with `capacity = rate`, so up to
`rate` tokens are free: for any rate `r ≥ 1` and `N` acquires the total
elapsed suspension time is at least `N/r - 1` (equivalently `(N - r)/r`);
and for any configured rate `r ≤ 0`, acquire returns immediately without
suspending or changing the limiter state.  (For `0 < r < 1` the claim is
not restored by this bound: replenishment is capped at `capacity = r < 1`,
so `acquire` never completes at all.) -/
theorem rate_limiter_elapsed_bound :
    (∀ (r t0 : ℚ) (N : Nat), 1 ≤ r →
      ∃ s, acquireN r N (limInit r t0) = some s ∧
        (N : ℚ) / r - 1 ≤ s.clock - t0) ∧
    (∀ (r : ℚ) (s : LimState), r ≤ 0 → acquire r s = some s) := by
  constructor
  · intro r t0 N hr
    have hr0 : (0 : ℚ) < r := lt_of_lt_of_le one_pos hr
    obtain ⟨s2, hrun, h20, h21, hM⟩ :=
      acquireN_invariant r hr N (limInit r t0)
        (by show (0 : ℚ) ≤ r; linarith)
        (by show t0 ≤ t0; exact le_refl t0)
    refine ⟨s2, hrun, ?_⟩
    have hlast : s2.last * r ≤ s2.clock * r :=
      mul_le_mul_of_nonneg_right h21 hr0.le
    have hM2 : s2.tokens - s2.last * r ≤ r - t0 * r - N := hM
    have hexp : (s2.clock - t0 + 1) * r = s2.clock * r - t0 * r + r := by
      ring
    have hN : (N : ℚ) ≤ (s2.clock - t0 + 1) * r := by
      rw [hexp]
      linarith
    have hdiv : (N : ℚ) / r ≤ s2.clock - t0 + 1 := (div_le_iff₀ hr0).mpr hN
    linarith
  · intro r s hle
    unfold acquire
    rw [if_pos hle]

/-- C5, witness for `rate_limiter_elapsed_bound`: three acquires at rate 2
starting at time 0, and a disabled limiter at rate -1. -/
theorem rate_limiter_elapsed_bound_witness :
    (∃ s, acquireN 2 3 (limInit 2 0) = some s ∧
      (3 : ℚ) / 2 - 1 ≤ s.clock - 0) ∧
    acquire (-1) ⟨5, 0, 0⟩ = some ⟨5, 0, 0⟩ := by
  exact ⟨rate_limiter_elapsed_bound.1 2 0 3 (by norm_num),
    rate_limiter_elapsed_bound.2 (-1) ⟨5, 0, 0⟩ (by norm_num)⟩

/-- Keeping the last `n` of a list absorbs into a later slice. -/
theorem lastN_all (n : Nat) (l : List α) (h : l.length ≤ n) :
    lastN n l = l := by
  unfold lastN
  rw [Nat.sub_eq_zero_of_le h, List.drop_zero]

/-- `lastN` never keeps more than `n` entries. -/
theorem length_lastN_le (n : Nat) (l : List α) : (lastN n l).length ≤ n := by
  unfold lastN
  rw [List.length_drop]
  omega

/-- Truncating to the last `n`, appending, and truncating again is the same
as truncating the whole concatenation. -/
theorem lastN_idem_append (n : Nat) (l es : List α) :
    lastN n (lastN n l ++ es) = lastN n (l ++ es) := by
  unfold lastN
  simp only [List.length_append, List.length_drop]
  rw [List.drop_append_eq_append_drop, List.drop_append_eq_append_drop,
    List.drop_drop]
  simp only [List.length_drop]
  congr 1
  · congr 1
    omega
  · congr 1
    omega

/-- Running a schedule in two pieces. -/
theorem wsRun_append (a b : List WsAction) (s : WsState) :
    wsRun (a ++ b) s = wsRun b (wsRun a s) := by
  induction a generalizing s with
  | nil => rfl
  | cons x xs ih => simp [wsRun, ih]

/-- Events emitted before any subscriber registers only fill the log, which
keeps its newest 1000 entries. -/
theorem wsRun_emits_unregistered (es : List Nat) :
    ∀ (b ho : List Nat) (p : Nat) (rc : List Nat), b.length ≤ 1000 →
      wsRun (es.map WsAction.emit) ⟨b, false, ho, false, p, rc⟩ =
        ⟨lastN 1000 (b ++ es), false, ho, false, p, rc⟩ := by
  induction es with
  | nil =>
    intro b ho p rc hb
    simp [wsRun, lastN_all 1000 b hb]
  | cons e rest ih =>
    intro b ho p rc hb
    have hstep : wsEmit e ⟨b, false, ho, false, p, rc⟩ =
        ⟨lastN 1000 (b ++ [e]), false, ho, false, p, rc⟩ := by
      have hbuf : (if 1000 < (b ++ [e]).length then
            (b ++ [e]).drop ((b ++ [e]).length - 1000)
          else b ++ [e]) = lastN 1000 (b ++ [e]) := by
        by_cases h : 1000 < (b ++ [e]).length
        · rw [if_pos h]
          rfl
        · rw [if_neg h, lastN_all 1000 (b ++ [e]) (Nat.not_lt.mp h)]
      show (⟨if 1000 < (b ++ [e]).length then
          (b ++ [e]).drop ((b ++ [e]).length - 1000) else b ++ [e],
        false, if false = true then b ++ [e] else ho,
        false && !(decide (1000 < (b ++ [e]).length)), p,
        if false = true then rc ++ [e] else rc⟩ : WsState) = _
      rw [hbuf]
      simp
    show wsRun (rest.map WsAction.emit)
        (wsEmit e ⟨b, false, ho, false, p, rc⟩) = _
    rw [hstep, ih (lastN 1000 (b ++ [e])) ho p rc (length_lastN_le 1000 _),
      lastN_idem_append]
    simp

/-- Enough replay steps deliver the whole captured log, in order, to the
subscriber; the log itself is untouched. -/
theorem wsRun_replay (R : Nat) :
    ∀ (b ho rc : List Nat) (reg : Bool) (p : Nat), b.length ≤ p + R →
      wsRun (List.replicate R WsAction.replayStep) ⟨b, reg, ho, true, p, rc⟩ =
        ⟨b, reg, ho, true, max p b.length, rc ++ b.drop p⟩ := by
  induction R with
  | zero =>
    intro b ho rc reg p hR
    have h : b.length ≤ p := by omega
    simp [wsRun, List.drop_eq_nil_of_le h, Nat.max_eq_left h]
  | succ R ih =>
    intro b ho rc reg p hR
    rw [List.replicate_succ]
    by_cases hp : p < b.length
    · have hstep : wsReplayStep ⟨b, reg, ho, true, p, rc⟩ =
          ⟨b, reg, ho, true, p + 1, rc ++ [b.getD p 0]⟩ := by
        unfold wsReplayStep
        simp [hp]
      show wsRun (List.replicate R WsAction.replayStep)
          (wsReplayStep ⟨b, reg, ho, true, p, rc⟩) = _
      rw [hstep, ih b ho (rc ++ [b.getD p 0]) reg (p + 1) (by omega)]
      have hdrop : b.drop p = b.getD p 0 :: b.drop (p + 1) := by
        rw [List.drop_eq_getElem_cons hp]
        congr 1
        rw [List.getD_eq_getElem b 0 hp]
      have hmax : max (p + 1) b.length = max p b.length := by omega
      rw [hdrop, hmax]
      simp [List.append_assoc]
    · have hstep : wsReplayStep ⟨b, reg, ho, true, p, rc⟩ =
          ⟨b, reg, ho, true, p, rc⟩ := by
        unfold wsReplayStep
        simp [hp]
      show wsRun (List.replicate R WsAction.replayStep)
          (wsReplayStep ⟨b, reg, ho, true, p, rc⟩) = _
      rw [hstep, ih b ho rc reg p (by omega)]

/-- Events emitted once the subscriber is registered are delivered to it
immediately, in emission order. -/
theorem wsRun_emits_registered (fs : List Nat) :
    ∀ (s : WsState), s.registered = true →
      (wsRun (fs.map WsAction.emit) s).received = s.received ++ fs ∧
      (wsRun (fs.map WsAction.emit) s).registered = true := by
  induction fs with
  | nil =>
    intro s h
    exact ⟨by simp [wsRun], by simp [wsRun, h]⟩
  | cons f rest ih =>
    intro s h
    have hreg : (wsEmit f s).registered = s.registered := rfl
    have hrc : (wsEmit f s).received = s.received ++ [f] := by
      unfold wsEmit
      simp [h]
    obtain ⟨ih1, ih2⟩ := ih (wsEmit f s) (hreg.trans h)
    constructor
    · show (wsRun (rest.map WsAction.emit) (wsEmit f s)).received = _
      rw [ih1, hrc]
      simp
    · exact ih2

/-- C6, counterexample.  The endpoint registers the socket with the
manager *before* replaying the buffered history (web/app.py 84-88), so an
event emitted concurrently during the replay window is broadcast to the
subscriber at once: with `e1` buffered before registration and `e2`
emitted just after it, the subscriber receives `e2` before `e1`, not the
claimed buffered-then-live order `[1, 2]`. -/
theorem ws_replay_interleaving_cex :
    (wsRun [WsAction.emit 1, WsAction.register, WsAction.emit 2,
        WsAction.replayStep] wsInit).received = [2, 1] ∧
    ([2, 1] : List Nat) ≠ [1] ++ [2] := by
  exact ⟨by decide, by decide⟩

/-- C6, amended.  Provided no event is emitted between registration and
the end of the replay, a subscriber that attaches after events `es` were
emitted receives first the buffered events (the last 1000 of `es`, oldest
discarded) in order, and only then the subsequent live events `fs`. -/
theorem ws_replay_before_live (es fs : List Nat) (R : Nat)
    (hR : min es.length 1000 ≤ R) :
    (wsRun (es.map WsAction.emit ++ WsAction.register ::
        (List.replicate R WsAction.replayStep ++ fs.map WsAction.emit))
      wsInit).received = es.drop (es.length - 1000) ++ fs := by
  rw [wsRun_append]
  have h0 : wsRun (es.map WsAction.emit) wsInit =
      ⟨lastN 1000 es, false, [], false, 0, []⟩ := by
    have := wsRun_emits_unregistered es [] [] 0 [] (by simp)
    simpa [wsInit] using this
  rw [h0]
  show (wsRun (List.replicate R WsAction.replayStep ++ fs.map WsAction.emit)
      (wsRegister ⟨lastN 1000 es, false, [], false, 0, []⟩)).received = _
  have h1 : wsRegister ⟨lastN 1000 es, false, [], false, 0, []⟩ =
      ⟨lastN 1000 es, true, lastN 1000 es, true, 0, []⟩ := by
    unfold wsRegister
    simp
  rw [h1, wsRun_append]
  have hlen : (lastN 1000 es).length ≤ 0 + R := by
    unfold lastN
    rw [List.length_drop]
    omega
  rw [wsRun_replay R (lastN 1000 es) (lastN 1000 es) [] true 0 hlen]
  have h2 := wsRun_emits_registered fs
    ⟨lastN 1000 es, true, lastN 1000 es, true,
      max 0 (lastN 1000 es).length, [] ++ (lastN 1000 es).drop 0⟩ rfl
  rw [h2.1]
  simp [lastN]

/-- C6, witness for `ws_replay_before_live`: two buffered events, two
replay steps, one live event afterwards. -/
theorem ws_replay_before_live_witness :
    min ([1, 2] : List Nat).length 1000 ≤ 2 ∧
    (wsRun (([1, 2] : List Nat).map WsAction.emit ++ WsAction.register ::
        (List.replicate 2 WsAction.replayStep ++
          ([3] : List Nat).map WsAction.emit)) wsInit).received =
      ([1, 2] : List Nat).drop (([1, 2] : List Nat).length - 1000) ++ [3] :=
  ⟨by decide, ws_replay_before_live [1, 2] [3] 2 (by decide)⟩

/-- The string list produced by a successful `allStrings` holds exactly the
strings among the collected values. -/
theorem allStrings_mem :
    ∀ (vs : List Json) (l : List String), allStrings vs = some l →
      ∀ s : String, (s ∈ l ↔ Json.str s ∈ vs) := by
  intro vs
  induction vs with
  | nil =>
    intro l h s
    simp only [allStrings, Option.some.injEq] at h
    subst h
    simp
  | cons v vs ih =>
    intro l h s
    cases v with
    | str a =>
      simp only [allStrings] at h
      rcases Option.map_eq_some'.mp h with ⟨l2, hl2, rfl⟩
      simp [List.mem_cons, ih l2 hl2 s, Json.str.injEq]
    | null => exact absurd h (by simp [allStrings])
    | bool b => exact absurd h (by simp [allStrings])
    | num n => exact absurd h (by simp [allStrings])
    | arr xs => exact absurd h (by simp [allStrings])
    | obj kvs => exact absurd h (by simp [allStrings])

/-- C7, counterexample.  The claim says every returned element ends with
`.t`.  Nothing in `get_unique_subdomains` checks the stored values against
the target: a subdomain-module finding whose payload carries
`{"subdomain": "evil.org"}` for target `example.com` is returned as-is,
and `"evil.org"` does not end with `".example.com"`. -/
theorem unique_subdomains_suffix_cex :
    get_unique_subdomains
        [⟨1, none, "example.com", "subdomain/crtsh", "crtsh", "subdomain",
          Json.obj [("subdomain", Json.str "evil.org")]⟩] "example.com" =
      some ["evil.org"] ∧
    "evil.org".endsWith ".example.com" = false := by
  exact ⟨by decide, by decide⟩

/-- C7, amended.  When the collected `subdomain` values are all strings
(so Python's `sorted` is well typed), `get_unique_subdomains` returns the
union of the `subdomain` keys of all subdomain-module findings' payloads
(objects or lists of objects) as a strictly increasing lexicographic list
with no duplicates; no `.target` suffix guarantee holds. -/
theorem unique_subdomains_sorted_union (rows : List ResultRow)
    (target : String) (ss : List String)
    (h : get_unique_subdomains rows target = some ss) :
    List.Sorted (· < ·) ss ∧
    ∀ s : String, s ∈ ss ↔ Json.str s ∈ subdomainValues rows target := by
  unfold get_unique_subdomains at h
  rcases Option.map_eq_some'.mp h with ⟨l, hl, rfl⟩
  constructor
  · have hsorted : List.Sorted (· ≤ ·) (sortedDedup l) :=
      List.sorted_insertionSort (· ≤ ·) l.dedup
    have hperm : List.Perm (sortedDedup l) l.dedup :=
      List.perm_insertionSort (· ≤ ·) l.dedup
    have hnodup : (sortedDedup l).Nodup := hperm.nodup_iff.mpr l.nodup_dedup
    exact hsorted.lt_of_le hnodup
  · intro s
    have h1 : s ∈ sortedDedup l ↔ s ∈ l.dedup :=
      (List.perm_insertionSort (· ≤ ·) l.dedup).mem_iff
    exact h1.trans ((List.mem_dedup).trans (allStrings_mem _ l hl s))

/-- C7, witness for `unique_subdomains_sorted_union` on a store with one
subdomain finding. -/
theorem unique_subdomains_sorted_union_witness :
    get_unique_subdomains [⟨1, none, "t", "subdomain/x", "x", "subdomain",
        Json.obj [("subdomain", Json.str "a")]⟩] "t" = some ["a"] ∧
    (List.Sorted (· < ·) ["a"] ∧
     ∀ s : String, s ∈ ["a"] ↔ Json.str s ∈ subdomainValues
        [⟨1, none, "t", "subdomain/x", "x", "subdomain",
          Json.obj [("subdomain", Json.str "a")]⟩] "t") := by
  have hpre : get_unique_subdomains [⟨1, none, "t", "subdomain/x", "x",
      "subdomain", Json.obj [("subdomain", Json.str "a")]⟩] "t" =
      some ["a"] := by decide
  exact ⟨hpre, unique_subdomains_sorted_union _ "t" ["a"] hpre⟩

/-- Unfolding of `likeMatch` at a nonempty pattern. -/
theorem likeMatch_cons (q : Char) (ps s : List Char) :
    likeMatch (q :: ps) s =
      if q = '%' then s.tails.any (fun t => likeMatch ps t)
      else
        match s with
        | [] => false
        | c :: cs =>
            (q == '_' || lowerAscii q == lowerAscii c) && likeMatch ps cs :=
  rfl

/-- A lone `%` matches every text. -/
theorem likeMatch_percent (s : List Char) : likeMatch ['%'] s = true := by
  rw [likeMatch_cons, if_pos rfl, List.any_eq_true]
  exact ⟨[], (List.mem_tails _ _).mpr List.nil_suffix, rfl⟩

/-- A wildcard-free pattern followed by `%` matches exactly the texts whose
ASCII-lowercased form starts with the lowercased pattern. -/
theorem likeMatch_lit_percent :
    ∀ (p : List Char), (∀ c ∈ p, c ≠ '%' ∧ c ≠ '_') →
      ∀ s : List Char, likeMatch (p ++ ['%']) s =
        (p.map lowerAscii).isPrefixOf (s.map lowerAscii) := by
  intro p
  induction p with
  | nil =>
    intro _ s
    simp only [List.nil_append, List.map_nil]
    rw [likeMatch_percent s]
    simp
  | cons c p ih =>
    intro hp s
    have hc := hp c (List.mem_cons_self c p)
    have hp2 : ∀ x ∈ p, x ≠ '%' ∧ x ≠ '_' :=
      fun x hx => hp x (List.mem_cons_of_mem c hx)
    have hcons : (c :: p) ++ ['%'] = c :: (p ++ ['%']) := rfl
    rw [hcons, likeMatch_cons, if_neg hc.1]
    cases s with
    | nil => rfl
    | cons d ds =>
      have hund : (c == '_') = false := beq_eq_false_iff_ne.mpr hc.2
      show ((c == '_' || lowerAscii c == lowerAscii d) &&
          likeMatch (p ++ ['%']) ds) = _
      rw [hund, Bool.false_or, ih hp2 ds]
      rfl

/-- C8, counterexample.  SQLite's `LIKE` is ASCII-case-insensitive, so the
prefix filter is not "module starts with `<module>/`": a row with module
`SUBDOMAIN/crtsh` is returned by the filter `subdomain` although its module
does not start with `subdomain/`. -/
theorem module_filter_case_insensitive_cex :
    (get_results [⟨1, none, "t", "SUBDOMAIN/crtsh", "crtsh", "subdomain",
        Json.null⟩] "t" (some "subdomain") none).map ResultRow.module =
      ["SUBDOMAIN/crtsh"] ∧
    "subdomain/".toList.isPrefixOf "SUBDOMAIN/crtsh".toList = false := by
  exact ⟨by decide, by decide⟩

/-- C8, amended.  A module filter containing `/` matches exactly the rows
whose module equals it (SQLite `=` is exact); a filter without `/` and
without the LIKE wildcards `%`/`_` matches exactly the rows whose module
starts, up to ASCII case, with `<module>/`; and when a scan_id is supplied
the target argument is ignored entirely (scan_id takes precedence). -/
theorem get_results_filter_semantics (rows : List ResultRow)
    (target target2 m : String) (mo : Option String) (sid : String)
    (hslash : '/' ∉ m.toList)
    (hwild : ∀ c ∈ m.toList, c ≠ '%' ∧ c ≠ '_') :
    (get_results rows target (some m) none =
      (rows.filter (fun r => r.target == target)).filter
        (fun r => ((m ++ "/").toList.map lowerAscii).isPrefixOf
          (r.module.toList.map lowerAscii))) ∧
    (∀ mex : String, '/' ∈ mex.toList →
      get_results rows target (some mex) none =
        (rows.filter (fun r => r.target == target)).filter
          (fun r => r.module == mex)) ∧
    (get_results rows target mo (some sid) =
      get_results rows target2 mo (some sid)) := by
  have e1 : "/%".toList = ['/', '%'] := rfl
  have e2 : "/".toList = ['/'] := rfl
  refine ⟨?_, ?_, ?_⟩
  · have hpat : (m ++ "/%").toList = (m ++ "/").toList ++ ['%'] := by
      show (m ++ "/%").data = (m ++ "/").data ++ ['%']
      rw [String.data_append, String.data_append]
      simp
    have hp : ∀ c ∈ (m ++ "/").toList, c ≠ '%' ∧ c ≠ '_' := by
      intro c hcm
      have hcm2 : c ∈ m.data ++ ['/'] := hcm
      rcases List.mem_append.mp hcm2 with h | h
      · exact hwild c h
      · have : c = '/' := List.mem_singleton.mp h
        subst this
        exact ⟨by decide, by decide⟩
    simp only [get_results]
    rw [if_neg hslash]
    apply List.filter_congr
    intro r _
    rw [hpat, likeMatch_lit_percent _ hp r.module.toList]
  · intro mex hmex
    simp only [get_results]
    rw [if_pos hmex]
  · simp only [get_results]

/-- C8, witness for `get_results_filter_semantics` with the filter
`subdomain` on a one-row table. -/
theorem get_results_filter_semantics_witness :
    ('/' ∉ "subdomain".toList) ∧
    (∀ c ∈ "subdomain".toList, c ≠ '%' ∧ c ≠ '_') ∧
    (get_results [⟨1, none, "t", "SUBDOMAIN/crtsh", "crtsh", "subdomain",
        Json.null⟩] "t" (some "subdomain") none =
      ([⟨1, none, "t", "SUBDOMAIN/crtsh", "crtsh", "subdomain",
        Json.null⟩].filter (fun r => r.target == "t")).filter
        (fun r => (("subdomain" ++ "/").toList.map lowerAscii).isPrefixOf
          (r.module.toList.map lowerAscii))) := by
  refine ⟨by decide, by decide, ?_⟩
  exact (get_results_filter_semantics [⟨1, none, "t", "SUBDOMAIN/crtsh",
    "crtsh", "subdomain", Json.null⟩] "t" "t" "subdomain" none "x"
    (by decide) (by decide)).1

/-- Unfolding of the duplicate scan at one row. -/
theorem dupIds_cons (seen : List (String × String)) (r : ResultRow)
    (rs : List ResultRow) :
    dupIds seen (r :: rs) =
      if resKey r ∈ seen then r.id :: dupIds seen rs
      else dupIds (resKey r :: seen) rs := rfl

/-- The marked ids are some of the scanned rows' ids, in table order. -/
theorem dupIds_sublist :
    ∀ (l : List ResultRow) (seen : List (String × String)),
      (dupIds seen l).Sublist (l.map ResultRow.id) := by
  intro l
  induction l with
  | nil => intro seen; simp [dupIds]
  | cons r rs ih =>
    intro seen
    rw [dupIds_cons, List.map_cons]
    by_cases hk : resKey r ∈ seen
    · rw [if_pos hk]
      exact List.Sublist.cons₂ r.id (ih seen)
    · rw [if_neg hk]
      exact List.Sublist.cons r.id (ih (resKey r :: seen))

/-- A scanned row is marked exactly when its key was either already in
`seen` or carried by an earlier (smaller-id) scanned row. -/
theorem mem_dupIds (l : List ResultRow)
    (hnd : List.Pairwise (fun a b => a.id < b.id) l) :
    ∀ (seen : List (String × String)) (x : Nat),
      (x ∈ dupIds seen l ↔ ∃ r ∈ l, r.id = x ∧ (resKey r ∈ seen ∨
        ∃ r2 ∈ l, r2.id < r.id ∧ resKey r2 = resKey r)) := by
  induction l with
  | nil => intro seen x; simp [dupIds]
  | cons r rs ih =>
    obtain ⟨hlt, hnd2⟩ := List.pairwise_cons.mp hnd
    intro seen x
    by_cases hk : resKey r ∈ seen
    · rw [dupIds_cons, if_pos hk]
      constructor
      · intro hx
        rcases List.mem_cons.mp hx with hx | hx
        · exact ⟨r, List.mem_cons_self r rs, hx.symm, Or.inl hk⟩
        · rcases (ih hnd2 seen x).mp hx with ⟨r2, hr2, hid, hcase⟩
          refine ⟨r2, List.mem_cons_of_mem r hr2, hid, ?_⟩
          rcases hcase with h | ⟨r3, hr3, h3lt, h3k⟩
          · exact Or.inl h
          · exact Or.inr ⟨r3, List.mem_cons_of_mem r hr3, h3lt, h3k⟩
      · rintro ⟨r2, hr2, hid, hcase⟩
        rcases List.mem_cons.mp hr2 with heq | hmem
        · exact List.mem_cons.mpr (Or.inl (by rw [← hid, heq]))
        · rcases hcase with h | ⟨r3, hr3, h3lt, h3k⟩
          · exact List.mem_cons.mpr
              (Or.inr ((ih hnd2 seen x).mpr ⟨r2, hmem, hid, Or.inl h⟩))
          · rcases List.mem_cons.mp hr3 with heq3 | hr3m
            · exact List.mem_cons.mpr (Or.inr ((ih hnd2 seen x).mpr
                ⟨r2, hmem, hid, Or.inl (by rw [← h3k, heq3]; exact hk)⟩))
            · exact List.mem_cons.mpr (Or.inr ((ih hnd2 seen x).mpr
                ⟨r2, hmem, hid, Or.inr ⟨r3, hr3m, h3lt, h3k⟩⟩))
    · rw [dupIds_cons, if_neg hk, ih hnd2 (resKey r :: seen) x]
      constructor
      · rintro ⟨r2, hr2, hid, hcase⟩
        refine ⟨r2, List.mem_cons_of_mem r hr2, hid, ?_⟩
        rcases hcase with h | ⟨r3, hr3, h3lt, h3k⟩
        · rcases List.mem_cons.mp h with heq | hseen
          · exact Or.inr ⟨r, List.mem_cons_self r rs, hlt r2 hr2, heq.symm⟩
          · exact Or.inl hseen
        · exact Or.inr ⟨r3, List.mem_cons_of_mem r hr3, h3lt, h3k⟩
      · rintro ⟨r2, hr2, hid, hcase⟩
        rcases List.mem_cons.mp hr2 with heq | hmem
        · rcases hcase with h | ⟨r3, hr3, h3lt, h3k⟩
          · exact absurd (heq ▸ h) hk
          · rcases List.mem_cons.mp hr3 with heq3 | hr3m
            · rw [heq3, heq] at h3lt
              exact absurd h3lt (lt_irrefl _)
            · rw [heq] at h3lt
              exact absurd h3lt (not_lt.mpr (le_of_lt (hlt r3 hr3m)))
        · refine ⟨r2, hmem, hid, ?_⟩
          rcases hcase with h | ⟨r3, hr3, h3lt, h3k⟩
          · exact Or.inl (List.mem_cons_of_mem _ h)
          · rcases List.mem_cons.mp hr3 with heq3 | hr3m
            · exact Or.inl (List.mem_cons.mpr (Or.inl (by rw [← h3k, heq3])))
            · exact Or.inr ⟨r3, hr3m, h3lt, h3k⟩

/-- DELETE by a batch of distinct ids removes exactly one row per id. -/
theorem length_filter_id_mem :
    ∀ (rows : List ResultRow) (ids : List Nat),
      ids.Sublist (rows.map ResultRow.id) →
      (rows.map ResultRow.id).Nodup →
      (rows.filter (fun r => decide (r.id ∈ ids))).length = ids.length := by
  intro rows
  induction rows with
  | nil =>
    intro ids hsub _
    have h := List.sublist_nil.mp hsub
    subst h
    simp
  | cons r rs ih =>
    intro ids hsub hnd
    rw [List.map_cons] at hsub hnd
    obtain ⟨hr, hnd2⟩ := List.nodup_cons.mp hnd
    rcases List.sublist_cons_iff.mp hsub with h | ⟨ids2, rfl, h⟩
    · have hrid : r.id ∉ ids := fun hin => hr (h.subset hin)
      simp [List.filter_cons, hrid, ih ids h hnd2]
    · have hfc : rs.filter (fun x => decide (x.id ∈ r.id :: ids2)) =
          rs.filter (fun x => decide (x.id ∈ ids2)) := by
        apply List.filter_congr
        intro x hx
        have hxid : x.id ∈ rs.map ResultRow.id := List.mem_map_of_mem _ hx
        have hne : x.id ≠ r.id := fun he => hr (he ▸ hxid)
        simp [List.mem_cons, hne]
      have hc : decide (r.id ∈ r.id :: ids2) = true := by simp
      rw [List.filter_cons, if_pos hc, hfc, List.length_cons,
        ih ids2 h hnd2, List.length_cons]

/-- A scan over rows with pairwise distinct keys, none already seen, marks
nothing. -/
theorem dupIds_eq_nil :
    ∀ (l : List ResultRow) (seen : List (String × String)),
      List.Pairwise (fun a b => resKey a ≠ resKey b) l →
      (∀ r ∈ l, resKey r ∉ seen) → dupIds seen l = [] := by
  intro l
  induction l with
  | nil => intro seen _ _; rfl
  | cons r rs ih =>
    intro seen hpw hseen
    obtain ⟨hhead, htail⟩ := List.pairwise_cons.mp hpw
    rw [dupIds_cons, if_neg (hseen r (List.mem_cons_self _ _))]
    apply ih (resKey r :: seen) htail
    intro r2 hr2
    rw [List.mem_cons]
    push_neg
    exact ⟨fun he => (hhead r2 hr2) he.symm,
      hseen r2 (List.mem_cons_of_mem _ hr2)⟩

/-- C9.  On a table with strictly increasing ids (the AUTOINCREMENT
invariant), Compact deletes exactly the rows in scope (matching target and,
when given, type) whose `(type, serialized payload)` key duplicates an
earlier in-scope row; the returned count is the number of rows removed;
and running Compact again immediately deletes nothing and returns 0. -/
theorem deduplicate_results_spec (rows : List ResultRow) (target : String)
    (ty : Option String)
    (hsorted : List.Pairwise (fun a b => a.id < b.id) rows) :
    (deduplicate_results rows target ty).2 +
        ((deduplicate_results rows target ty).1).length = rows.length ∧
    ((deduplicate_results rows target ty).1).Sublist rows ∧
    (∀ r ∈ rows, (r ∉ (deduplicate_results rows target ty).1 ↔
      dedupPred target ty r = true ∧
      ∃ r2 ∈ rows, r2.id < r.id ∧ dedupPred target ty r2 = true ∧
        resKey r2 = resKey r)) ∧
    deduplicate_results (deduplicate_results rows target ty).1 target ty =
      ((deduplicate_results rows target ty).1, 0) := by
  have hidnd : (rows.map ResultRow.id).Nodup :=
    List.pairwise_map.mpr (hsorted.imp (fun h => Nat.ne_of_lt h))
  have hinj : ∀ x ∈ rows, ∀ y ∈ rows, x.id = y.id → x = y :=
    fun x hx y hy h => List.inj_on_of_nodup_map hidnd hx hy h
  have hselsub : (dedupSelect rows target ty).Sublist rows :=
    List.filter_sublist rows
  have hselsorted :
      List.Pairwise (fun a b => a.id < b.id) (dedupSelect rows target ty) :=
    hsorted.sublist hselsub
  have hdel : ∀ x, x ∈ dupIds [] (dedupSelect rows target ty) ↔
      ∃ r ∈ dedupSelect rows target ty, r.id = x ∧
        ∃ r2 ∈ dedupSelect rows target ty, r2.id < r.id ∧
          resKey r2 = resKey r := by
    intro x
    rw [mem_dupIds (dedupSelect rows target ty) hselsorted [] x]
    constructor
    · rintro ⟨r, hr, hid, hcase⟩
      rcases hcase with h | h
      · exact absurd h (List.not_mem_nil _)
      · exact ⟨r, hr, hid, h⟩
    · rintro ⟨r, hr, hid, h⟩
      exact ⟨r, hr, hid, Or.inr h⟩
  have hkept : ∀ r ∈ rows, (r ∉ (deduplicate_results rows target ty).1 ↔
      r.id ∈ dupIds [] (dedupSelect rows target ty)) := by
    intro r hr
    constructor
    · intro hnk
      by_contra hid
      exact hnk (List.mem_filter.mpr ⟨hr, by simpa using hid⟩)
    · intro hid hk
      have h2 := (List.mem_filter.mp hk).2
      rw [decide_eq_true_eq] at h2
      exact h2 hid
  have hchar : ∀ r ∈ rows, (r ∉ (deduplicate_results rows target ty).1 ↔
      dedupPred target ty r = true ∧ ∃ r2 ∈ rows, r2.id < r.id ∧
        dedupPred target ty r2 = true ∧ resKey r2 = resKey r) := by
    intro r hr
    rw [hkept r hr, hdel r.id]
    constructor
    · rintro ⟨rr, hrr, hid, r2, hr2, hlt2, hk⟩
      have hrrrows : rr ∈ rows := hselsub.subset hrr
      have heq : rr = r := hinj rr hrrrows r hr hid
      subst heq
      have hpredr : dedupPred target ty rr = true := (List.mem_filter.mp hrr).2
      have hr2rows : r2 ∈ rows := hselsub.subset hr2
      have hpred2 : dedupPred target ty r2 = true := (List.mem_filter.mp hr2).2
      exact ⟨hpredr, r2, hr2rows, hlt2, hpred2, hk⟩
    · rintro ⟨hpred, r2, hr2, hlt2, hpred2, hk⟩
      exact ⟨r, List.mem_filter.mpr ⟨hr, hpred⟩, rfl, r2,
        List.mem_filter.mpr ⟨hr2, hpred2⟩, hlt2, hk⟩
  have hsubid : (dupIds [] (dedupSelect rows target ty)).Sublist
      (rows.map ResultRow.id) :=
    (dupIds_sublist _ []).trans (hselsub.map ResultRow.id)
  have hcount : (rows.filter (fun r =>
      decide (r.id ∈ dupIds [] (dedupSelect rows target ty)))).length =
      (dupIds [] (dedupSelect rows target ty)).length :=
    length_filter_id_mem rows _ hsubid hidnd
  have hperm := List.filter_append_perm
    (fun r => decide (r.id ∉ dupIds [] (dedupSelect rows target ty))) rows
  have hlen := hperm.length_eq
  rw [List.length_append] at hlen
  have hnotp : rows.filter (fun x =>
      !(decide (x.id ∉ dupIds [] (dedupSelect rows target ty)))) =
      rows.filter (fun x =>
        decide (x.id ∈ dupIds [] (dedupSelect rows target ty))) := by
    apply List.filter_congr
    intro x _
    simp
  rw [hnotp, hcount] at hlen
  refine ⟨?_, List.filter_sublist rows, hchar, ?_⟩
  · show (dupIds [] (dedupSelect rows target ty)).length +
      (rows.filter (fun r =>
        decide (r.id ∉ dupIds [] (dedupSelect rows target ty)))).length =
      rows.length
    omega
  · have hkeptsub : ((deduplicate_results rows target ty).1).Sublist rows :=
      List.filter_sublist rows
    have hkeptsorted : List.Pairwise (fun a b => a.id < b.id)
        ((deduplicate_results rows target ty).1) :=
      hsorted.sublist hkeptsub
    have hs2 : (dedupSelect ((deduplicate_results rows target ty).1) target
        ty).Sublist ((deduplicate_results rows target ty).1) :=
      List.filter_sublist _
    have hsorted2 : List.Pairwise (fun a b => a.id < b.id)
        (dedupSelect ((deduplicate_results rows target ty).1) target ty) :=
      hkeptsorted.sublist hs2
    have hkeysel : List.Pairwise (fun a b => resKey a ≠ resKey b)
        (dedupSelect ((deduplicate_results rows target ty).1) target ty) := by
      apply List.Pairwise.imp_of_mem ?_ hsorted2
      intro a b ha hb hab
      intro hkeq
      have hbk : b ∈ (deduplicate_results rows target ty).1 :=
        hs2.subset hb
      have hak : a ∈ (deduplicate_results rows target ty).1 :=
        hs2.subset ha
      have hbrows : b ∈ rows := hkeptsub.subset hbk
      have harows : a ∈ rows := hkeptsub.subset hak
      have hpredb : dedupPred target ty b = true := (List.mem_filter.mp hb).2
      have hpreda : dedupPred target ty a = true := (List.mem_filter.mp ha).2
      have hdelb : b ∉ (deduplicate_results rows target ty).1 :=
        (hchar b hbrows).mpr ⟨hpredb, a, harows, hab, hpreda, hkeq⟩
      exact hdelb hbk
    have hnil : dupIds []
        (dedupSelect ((deduplicate_results rows target ty).1) target ty) =
        [] :=
      dupIds_eq_nil _ [] hkeysel (fun r _ => List.not_mem_nil _)
    show (((deduplicate_results rows target ty).1).filter (fun r =>
        decide (r.id ∉ dupIds [] (dedupSelect
          ((deduplicate_results rows target ty).1) target ty))),
      (dupIds [] (dedupSelect ((deduplicate_results rows target ty).1)
        target ty)).length) =
      ((deduplicate_results rows target ty).1, 0)
    rw [hnil]
    simp

/-- C9, witness for `deduplicate_results_spec` on a two-row table whose
rows share the same `(type, payload)` key. -/
theorem deduplicate_results_spec_witness :
    List.Pairwise (fun a b => a.id < b.id)
      ([⟨1, none, "t", "subdomain/a", "a", "subdomain", Json.str "x"⟩,
        ⟨2, none, "t", "subdomain/b", "b", "subdomain", Json.str "x"⟩] :
        List ResultRow) ∧
    ((deduplicate_results
        [⟨1, none, "t", "subdomain/a", "a", "subdomain", Json.str "x"⟩,
         ⟨2, none, "t", "subdomain/b", "b", "subdomain", Json.str "x"⟩]
        "t" none).2 +
      ((deduplicate_results
        [⟨1, none, "t", "subdomain/a", "a", "subdomain", Json.str "x"⟩,
         ⟨2, none, "t", "subdomain/b", "b", "subdomain", Json.str "x"⟩]
        "t" none).1).length =
      ([⟨1, none, "t", "subdomain/a", "a", "subdomain", Json.str "x"⟩,
        ⟨2, none, "t", "subdomain/b", "b", "subdomain", Json.str "x"⟩] :
        List ResultRow).length ∧
     ((deduplicate_results
        [⟨1, none, "t", "subdomain/a", "a", "subdomain", Json.str "x"⟩,
         ⟨2, none, "t", "subdomain/b", "b", "subdomain", Json.str "x"⟩]
        "t" none).1).Sublist
      [⟨1, none, "t", "subdomain/a", "a", "subdomain", Json.str "x"⟩,
       ⟨2, none, "t", "subdomain/b", "b", "subdomain", Json.str "x"⟩] ∧
     (∀ r ∈ ([⟨1, none, "t", "subdomain/a", "a", "subdomain", Json.str "x"⟩,
        ⟨2, none, "t", "subdomain/b", "b", "subdomain", Json.str "x"⟩] :
        List ResultRow),
       (r ∉ (deduplicate_results
          [⟨1, none, "t", "subdomain/a", "a", "subdomain", Json.str "x"⟩,
           ⟨2, none, "t", "subdomain/b", "b", "subdomain", Json.str "x"⟩]
          "t" none).1 ↔
        dedupPred "t" none r = true ∧
        ∃ r2 ∈ ([⟨1, none, "t", "subdomain/a", "a", "subdomain",
            Json.str "x"⟩,
          ⟨2, none, "t", "subdomain/b", "b", "subdomain", Json.str "x"⟩] :
          List ResultRow), r2.id < r.id ∧ dedupPred "t" none r2 = true ∧
          resKey r2 = resKey r)) ∧
     deduplicate_results (deduplicate_results
        [⟨1, none, "t", "subdomain/a", "a", "subdomain", Json.str "x"⟩,
         ⟨2, none, "t", "subdomain/b", "b", "subdomain", Json.str "x"⟩]
        "t" none).1 "t" none =
      ((deduplicate_results
        [⟨1, none, "t", "subdomain/a", "a", "subdomain", Json.str "x"⟩,
         ⟨2, none, "t", "subdomain/b", "b", "subdomain", Json.str "x"⟩]
        "t" none).1, 0)) := by
  have hpw : List.Pairwise (fun a b => a.id < b.id)
      ([⟨1, none, "t", "subdomain/a", "a", "subdomain", Json.str "x"⟩,
        ⟨2, none, "t", "subdomain/b", "b", "subdomain", Json.str "x"⟩] :
        List ResultRow) := by
    refine List.pairwise_cons.mpr ⟨?_, ?_⟩
    · intro b hb
      have hb2 := List.mem_singleton.mp hb
      rw [hb2]
      decide
    · exact List.pairwise_cons.mpr
        ⟨fun b hb => absurd hb (List.not_mem_nil b), List.Pairwise.nil⟩
  exact ⟨hpw, deduplicate_results_spec _ "t" none hpw⟩
